import Mathlib

/-!
# Verification of the EPS clinic / affiliate record-store core

A shallow embedding of the domain layer of `affiliates.py` and `clinical.py`:
the persistence adapter (whole-file load / rewrite) is modelled by passing the
record collections in and out of each operation explicitly, strings stay
strings, and every function that Python lets raise for business errors is
total here and returns the same result-code strings the source returns
(`"ok"`, `"invalid data"`, `"out of range"`, `"slot taken"`, ...).

Python-specific primitives are modelled as follows:
* `str.strip()`-emptiness is `pyStripIsEmpty` (all characters whitespace);
  Python strips all Unicode whitespace while `Char.isWhitespace` covers the
  ASCII whitespace characters — they agree on ASCII data.
* `datetime.strptime(s, "%d/%m/%Y")` / `strptime(s, "%H:%M")` are
  `convertir_fecha` / `strptimeTime`, reproducing the CPython `_strptime`
  regexes (`%d`, `%m`, `%H`, `%M` admit one or two digits, `%Y` exactly four)
  plus the real-calendar-date check, returning `none` where Python raises
  `ValueError`.
* `date.weekday()` is `pyWeekday` (Monday = 0, ..., Sunday = 6), computed
  from the proleptic-Gregorian ordinal exactly as `datetime.date` does.
* `str.lower()` is `Char.toLower` mapped over the characters; the two agree
  on ASCII data.  Python's string `<`/`>` is lexicographic comparison of
  code points, which is the `List.Lex` linear order on `List Char`.
-/

namespace EPS

/-! ## Generic string helpers -/

/-- Python `not s.strip()`: the string is empty or all whitespace. -/
def pyStripIsEmpty (s : String) : Bool := s.data.all Char.isWhitespace

/-- Split a character list at every occurrence of `sep`, like Python
`s.split(sep)` / `String.splitOn` for a one-character separator. -/
def splitOnChar (sep : Char) : List Char → List (List Char)
  | [] => [[]]
  | c :: rest =>
    match splitOnChar sep rest with
    | [] => [[]]
    | g :: gs => if c = sep then [] :: g :: gs else (c :: g) :: gs

/-- The decimal value of a non-empty all-digit character list, `none`
otherwise (the numeric fields a `strptime` regex can capture). -/
def digitsVal : List Char → Option Nat
  | [] => none
  | cs =>
    if cs.all Char.isDigit then some (cs.foldl (fun a c => a * 10 + (c.toNat - 48)) 0)
    else none

/-- A field matched by the `%d`/`%m`/`%H`/`%M` patterns of CPython's
`_strptime`: one or two digits (value bounds are the caller's business). -/
def twoDigitField (cs : List Char) : Option Nat :=
  if cs.length = 1 ∨ cs.length = 2 then digitsVal cs else none

/-! ## Dates, times, weekdays (Python `datetime`) -/

/-- A calendar date as produced by
`datetime.strptime(s, "%d/%m/%Y").date()`. -/
structure PyDate where
  year : Nat
  month : Nat
  day : Nat
deriving Repr, DecidableEq

/-- Gregorian leap-year rule, as in Python's `datetime`. -/
def isLeap (y : Nat) : Bool := y % 4 == 0 && (y % 100 != 0 || y % 400 == 0)

/-- Number of days in month `m` (1-based) of year `y`. -/
def daysInMonth (y m : Nat) : Nat :=
  if m = 2 then (if isLeap y then 29 else 28)
  else if m = 4 ∨ m = 6 ∨ m = 9 ∨ m = 11 then 30 else 31

/-- Days of year `y` strictly before month `m`. -/
def daysBeforeMonth (y m : Nat) : Nat :=
  ((List.range (m - 1)).map (fun i => daysInMonth y (i + 1))).sum

/-- Python's `date.toordinal()`: `date(1,1,1).toordinal() = 1`. -/
def toOrdinal (dt : PyDate) : Nat :=
  365 * (dt.year - 1) + (dt.year - 1) / 4 + (dt.year - 1) / 400
    + daysBeforeMonth dt.year dt.month + dt.day - (dt.year - 1) / 100

/-- Python's `date.weekday()`: Monday = 0, ..., Sunday = 6. -/
def pyWeekday (dt : PyDate) : Nat := (toOrdinal dt + 6) % 7

/-- `convertir_fecha` from `affiliates.py`, and the date half of
`_valid_slot` in `clinical.py`: `datetime.strptime(s, "%d/%m/%Y").date()`,
with `none` where Python raises `ValueError`.  Day and month are 1–2 digit
fields in range, the year is exactly four digits, nothing else may remain in
the string, and the triple must be a real calendar date of year ≥ 1. -/
def convertir_fecha (s : String) : Option PyDate :=
  match splitOnChar '/' s.data with
  | [d, m, y] =>
    match twoDigitField d, twoDigitField m with
    | some dv, some mv =>
      if y.length = 4 then
        match digitsVal y with
        | some yv =>
          if 1 ≤ dv ∧ 1 ≤ mv ∧ mv ≤ 12 ∧ 1 ≤ yv ∧ dv ≤ daysInMonth yv mv
          then some ⟨yv, mv, dv⟩ else none
        | none => none
      else none
    | _, _ => none
  | _ => none

/-- `datetime.strptime(s, "%H:%M").time()` as an `(hour, minute)` pair,
`none` where Python raises `ValueError`. -/
def strptimeTime (s : String) : Option (Nat × Nat) :=
  match splitOnChar ':' s.data with
  | [h, m] =>
    match twoDigitField h, twoDigitField m with
    | some hv, some mv => if hv ≤ 23 ∧ mv ≤ 59 then some (hv, mv) else none
    | _, _ => none
  | _ => none

/-- `calcular_edad` from `affiliates.py`, with the clock (`date.today()`)
passed in explicitly:
`hoy.year - fn.year - ((hoy.month, hoy.day) < (fn.month, fn.day))`. -/
def calcular_edad (hoy fn : PyDate) : Int :=
  (hoy.year : Int) - (fn.year : Int) -
    (if hoy.month < fn.month ∨ (hoy.month = fn.month ∧ hoy.day < fn.day) then 1 else 0)

/-! ## Records -/

/-- A user record from `users.txt`.  Python reads the flag with
`get("session", False)`; it is a `Bool` here, defaulting to `false` at the
sites that create users. -/
structure User where
  name : String
  password : String
  role : String
  session : Bool
deriving Repr, DecidableEq

/-- An appointment record from `appointments.txt`. -/
structure Appt where
  id : String
  patient : String
  doctor : String
  date : String
  time : String
  status : String
deriving Repr, DecidableEq

/-- An affiliate row from `affiliates.csv`. -/
structure Aff where
  id : String
  names : String
  surnames : String
  birth : String
  plan : String
  gender : String
  email : String
deriving Repr, DecidableEq

/-! ## Identity domain (`affiliates.py`) -/

/-- `_find_user`: first user whose `name` equals `nombre`, else `None`. -/
def _find_user (lista : List User) (nombre : String) : Option User :=
  lista.find? (fun u => u.name == nombre)

/-- `findUser`, with the `users.txt` contents passed in explicitly. -/
def findUser (users : List User) (nombre : String) : Option User :=
  _find_user users nombre

/-! ## Validation utilities (`affiliates.py`) -/

/-- `plan_valido`: membership in `("A", "B", "C")`. -/
def plan_valido (p : String) : Bool := p == "A" || p == "B" || p == "C"

/-- `genero_valido`: membership in `("M", "F", "X")`. -/
def genero_valido (g : String) : Bool := g == "M" || g == "F" || g == "X"

/-- `correo_valido`: the string contains an `'@'` and a `'.'`. -/
def correo_valido (e : String) : Bool := e.data.contains '@' && e.data.contains '.'

/-! ## Affiliate domain (`affiliates.py`) -/

/-- `registerAffiliate`, with the stored collection passed in and the
(result, new collection) pair returned; the `_write_affiliates` call of the
source is the second component.  The check order is the source's: blank
fields, then date format, then plan/gender/email, then duplicate id. -/
def registerAffiliate (afiliados : List Aff)
    (id_afiliado nombres apellidos nacimiento plan genero correo : String) :
    String × List Aff :=
  if [id_afiliado, nombres, apellidos, nacimiento, plan, genero, correo].any pyStripIsEmpty
  then ("invalid data", afiliados)
  else if (convertir_fecha nacimiento).isNone then ("invalid date format", afiliados)
  else if !plan_valido plan || !genero_valido genero || !correo_valido correo
  then ("invalid data", afiliados)
  else if afiliados.any (fun af => af.id == id_afiliado) then ("id already exists", afiliados)
  else ("ok",
    afiliados ++ [⟨id_afiliado, nombres, apellidos, nacimiento, plan, genero, correo⟩])

/-- The bubble-sort key of `listAffiliates`: `af["surnames"].lower()`,
compared with Python's code-point-lexicographic string order (the `List.Lex`
linear order on `List Char`). -/
def lowerKey (a : Aff) : List Char := a.surnames.data.map Char.toLower

/-- One step of the inner loop of `listAffiliates`' bubble sort, with the
element currently sitting at position `j` carried in `x`: if
`a[j].key > a[j+1].key` the pair is swapped (so `x` is carried on),
otherwise `x` is placed and `y` carried. -/
def bpass (x : Aff) : List Aff → List Aff
  | [] => [x]
  | y :: rest => if lowerKey y < lowerKey x then y :: bpass x rest else x :: bpass y rest

/-- The inner loop `for j in range(0, n - i - 1)` of `listAffiliates`: a
bubble pass over the first `w` elements, leaving the rest untouched. -/
def passBounded (w : Nat) (l : List Aff) : List Aff :=
  match l.take w with
  | [] => l
  | x :: rest => bpass x rest ++ l.drop w

/-- The outer loop `for i in range(n)` of `listAffiliates`: passes of widths
`c, c-1, ..., 1`. -/
def bouter : Nat → List Aff → List Aff
  | 0, l => l
  | c + 1, l => bouter c (passBounded (c + 1) l)

/-- `listAffiliates`: bubble sort of the stored affiliates by lower-cased
surname, with the stored collection passed in explicitly. -/
def listAffiliates (afiliados : List Aff) : List Aff :=
  bouter afiliados.length afiliados

/-- `searchById`: first affiliate with the given id. -/
def searchById (afiliados : List Aff) (id_afiliado : String) : Option Aff :=
  afiliados.find? (fun af => af.id == id_afiliado)

/-- The accumulator of the `stats` loop. -/
structure StatsAcc where
  totA : Nat
  totB : Nat
  totC : Nat
  agesM : List Int
  agesF : List Int
  agesX : List Int
  allAges : List Int
deriving Repr, DecidableEq

/-- The aggregate `stats` returns when the collection is non-empty.  The
Python per-gender means are floats; they are modelled as exact rationals. -/
structure StatsRes where
  totA : Nat
  totB : Nat
  totC : Nat
  avgM : ℚ
  avgF : ℚ
  avgX : ℚ
  edad_minima : Int
  edad_maxima : Int
deriving Repr, DecidableEq

/-- One iteration of the `stats` loop body: count the plan (any plan outside
`{A,B,C}` is not counted), then — only if the birth date parses — append the
age to the global list and, if the gender is recognised, to that gender's
list.  A parse failure skips the whole age part (`except: continue`), but
the plan was already counted. -/
def statsStep (hoy : PyDate) (acc : StatsAcc) (af : Aff) : StatsAcc :=
  let acc :=
    if af.plan == "A" then { acc with totA := acc.totA + 1 }
    else if af.plan == "B" then { acc with totB := acc.totB + 1 }
    else if af.plan == "C" then { acc with totC := acc.totC + 1 }
    else acc
  match convertir_fecha af.birth with
  | none => acc
  | some fn =>
    let edad := calcular_edad hoy fn
    let acc := { acc with allAges := acc.allAges ++ [edad] }
    if af.gender == "M" then { acc with agesM := acc.agesM ++ [edad] }
    else if af.gender == "F" then { acc with agesF := acc.agesF ++ [edad] }
    else if af.gender == "X" then { acc with agesX := acc.agesX ++ [edad] }
    else acc

/-- Python `sum(e) / len(e) if e else 0.0`. -/
def promedio (l : List Int) : ℚ :=
  if l.isEmpty then 0 else (l.sum : ℚ) / (l.length : ℚ)

/-- Python `min(l) if l else 0`. -/
def pyMin : List Int → Int
  | [] => 0
  | x :: xs => xs.foldl min x

/-- Python `max(l) if l else 0`. -/
def pyMax : List Int → Int
  | [] => 0
  | x :: xs => xs.foldl max x

/-- `stats`, with the clock and the stored collection passed in explicitly.
`none` models the bare `{}` the source returns on an empty collection. -/
def stats (hoy : PyDate) (afiliados : List Aff) : Option StatsRes :=
  if afiliados.isEmpty then none
  else
    let a := afiliados.foldl (statsStep hoy) ⟨0, 0, 0, [], [], [], []⟩
    some ⟨a.totA, a.totB, a.totC, promedio a.agesM, promedio a.agesF, promedio a.agesX,
      pyMin a.allAges, pyMax a.allAges⟩

/-! ## Clinical domain (`clinical.py`) -/

/-- `_next_id`: `"1"` on an empty collection, else the maximal numeric id
plus one.  Ids written by the system are canonical decimal numerals, on
which `digitsVal` agrees with Python's `int`; on a string `int` cannot read,
Python would raise while this model reads 0. -/
def _next_id (rows : List Appt) : String :=
  if rows.isEmpty then "1"
  else toString ((rows.map (fun r => (digitsVal r.id.data).getD 0)).foldl max 0 + 1)

/-- `_valid_slot` from `clinical.py`: parse both strings (else
`"invalid data"`), then reject weekends, times outside 08:00–16:00
inclusive, and minutes other than 0/30 with `"out of range"`; else `"ok"`.
Python compares `time` objects; that is comparison of minutes-of-day here. -/
def _valid_slot (date_str time_str : String) : String :=
  match convertir_fecha date_str, strptimeTime time_str with
  | some fecha, some hora =>
    if pyWeekday fecha > 4 then "out of range"
    else if ¬(8 * 60 ≤ hora.1 * 60 + hora.2 ∧ hora.1 * 60 + hora.2 ≤ 16 * 60)
    then "out of range"
    else if ¬(hora.2 = 0 ∨ hora.2 = 30) then "out of range"
    else "ok"
  | _, _ => "invalid data"

/-- The collision predicate of `scheduleAppointment`, step 5: same doctor,
date and time, and status `"scheduled"`. -/
def matchesSlot (doctor_name date_str time_str : String) (c : Appt) : Bool :=
  c.doctor == doctor_name && c.date == date_str && c.time == time_str
    && c.status == "scheduled"

/-- `scheduleAppointment`, with the `users.txt` and `appointments.txt`
contents passed in and the (result, new appointments) pair returned. -/
def scheduleAppointment (users : List User) (citas : List Appt)
    (patient_name patient_password doctor_name date_str time_str : String) :
    String × List Appt :=
  if [patient_name, patient_password, doctor_name, date_str, time_str].any pyStripIsEmpty
  then ("invalid data", citas)
  else
    match findUser users doctor_name with
    | none => ("doctor not found", citas)
    | some doctor =>
      if doctor.role ≠ "doctor" then ("doctor not found", citas)
      else
        match findUser users patient_name with
        | none => ("user not logged in", citas)
        | some patient =>
          if patient.password ≠ patient_password ∨ patient.session = false
          then ("user not logged in", citas)
          else
            -- `estado_slot = _valid_slot(...)` in the source; inlined (pure)
            if _valid_slot date_str time_str ≠ "ok" then (_valid_slot date_str time_str, citas)
            else if citas.any (matchesSlot doctor_name date_str time_str)
            then ("slot taken", citas)
            else
              ("ok", citas ++
                [⟨_next_id citas, patient_name, doctor_name, date_str, time_str, "scheduled"⟩])

/-- The matching predicate of `cancelAppointment`'s search loop: same id
(the route passes the id through `str`, so it is a string here already),
owned by the requesting patient, and still `"scheduled"`. -/
def matchesCancel (appointment_id patient_name : String) (c : Appt) : Bool :=
  c.id == appointment_id && c.patient == patient_name && c.status == "scheduled"

/-- The search-and-flip loop of `cancelAppointment`: flip the status of the
first appointment matching id, patient and `"scheduled"` to `"cancelled"`;
`none` when no appointment matches (`cita_encontrada` stays false). -/
def cancelFirst (appointment_id patient_name : String) : List Appt → Option (List Appt)
  | [] => none
  | c :: rest =>
    if matchesCancel appointment_id patient_name c
    then some ({ c with status := "cancelled" } :: rest)
    else (cancelFirst appointment_id patient_name rest).map (fun l => c :: l)

/-- `cancelAppointment`, with the stores passed in explicitly.  On the
`"not found"` path the source never calls `_rewrite_jsonl`, so the
collection comes back unchanged. -/
def cancelAppointment (users : List User) (citas : List Appt)
    (patient_name patient_password appointment_id : String) : String × List Appt :=
  match findUser users patient_name with
  | none => ("user not logged in", citas)
  | some patient =>
    if patient.password ≠ patient_password ∨ patient.session = false
    then ("user not logged in", citas)
    else
      match cancelFirst appointment_id patient_name citas with
      | none => ("not found", citas)
      | some citas' => ("ok", citas')

/-! ## Invariants -/

/-- At most one `"scheduled"` appointment per (doctor, date, time) triple. -/
def ApptInv (citas : List Appt) : Prop :=
  ∀ d dt t, citas.countP (matchesSlot d dt t) ≤ 1

/-- Every affiliate id occurs at most once in the collection. -/
def AffIdsNodup (afiliados : List Aff) : Prop := (afiliados.map Aff.id).Nodup

/-- Affiliate collections reachable from the empty store by
`registerAffiliate` calls (successful or not). -/
inductive ReachableAff : List Aff → Prop
  | nil : ReachableAff []
  | step (afiliados : List Aff) (id_afiliado nombres apellidos nacimiento plan genero correo : String) :
      ReachableAff afiliados →
      ReachableAff (registerAffiliate afiliados id_afiliado nombres apellidos nacimiento plan genero correo).2

/-- The conjunction of `scheduleAppointment`'s checks (1)–(4): no blank
field, the doctor resolves with role `"doctor"`, the patient resolves with
the right password and an open session, and the slot is valid. -/
def preScheduleB (users : List User) (pn pw dn ds ts : String) : Bool :=
  !([pn, pw, dn, ds, ts].any pyStripIsEmpty)
  && (match findUser users dn with | some d => d.role == "doctor" | none => false)
  && (match findUser users pn with | some p => (p.password == pw) && p.session | none => false)
  && (_valid_slot ds ts == "ok")

/-! ## Definitions transcribed from the specification's words

These restate, in the specification's own phrasing, what the corresponding
source functions are claimed to do; the refinement theorems below compare
them with the embedded source functions. -/

/-- The specification's id-assignment rule: "next id (max existing numeric
id + 1, `"1"` if none)". -/
def nextIdSpec (citas : List Appt) : String :=
  if citas = [] then "1"
  else toString ((citas.map (fun c => (digitsVal c.id.data).getD 0)).foldr max 0 + 1)

/-- The specification's description of `scheduleAppointment`: ordered
checks — `invalid data` if any of the five fields is blank; `doctor not
found` if `findUser(doctorName)` is absent or its role is not `"doctor"`;
`user not logged in` if the patient is absent, the password mismatches, or
the session flag is not true; propagate the `_valid_slot` result if it is
not `"ok"`; `slot taken` if an existing appointment with the same doctor,
date and time has status `"scheduled"`; else append an appointment with the
next id and status `"scheduled"` and return `"ok"`. -/
def scheduleAppointmentSpec (users : List User) (citas : List Appt)
    (pn pw dn ds ts : String) : String × List Appt :=
  if pyStripIsEmpty pn ∨ pyStripIsEmpty pw ∨ pyStripIsEmpty dn ∨ pyStripIsEmpty ds
      ∨ pyStripIsEmpty ts
  then ("invalid data", citas)
  else if !(findUser users dn).any (fun d => d.role == "doctor")
  then ("doctor not found", citas)
  else if !(findUser users pn).any (fun p => (p.password == pw) && p.session)
  then ("user not logged in", citas)
  else if _valid_slot ds ts ≠ "ok" then (_valid_slot ds ts, citas)
  else if ∃ c ∈ citas, c.doctor = dn ∧ c.date = ds ∧ c.time = ts ∧ c.status = "scheduled"
  then ("slot taken", citas)
  else ("ok", citas ++ [⟨nextIdSpec citas, pn, dn, ds, ts, "scheduled"⟩])

/-- The specification's description of `registerAffiliate`: `invalid data`
if any of the seven fields is blank/whitespace-only; then `invalid date
format` if the birth string does not parse as dd/mm/yyyy; then
`invalid data` if the plan is not in {A,B,C}, the gender is not in {M,F,X},
or the email lacks an `'@'` or a `'.'`; then `id already exists` if the id
matches an existing affiliate; otherwise append and return `"ok"`. -/
def registerAffiliateSpec (afiliados : List Aff)
    (id_afiliado nombres apellidos nacimiento plan genero correo : String) :
    String × List Aff :=
  if pyStripIsEmpty id_afiliado ∨ pyStripIsEmpty nombres ∨ pyStripIsEmpty apellidos
      ∨ pyStripIsEmpty nacimiento ∨ pyStripIsEmpty plan ∨ pyStripIsEmpty genero
      ∨ pyStripIsEmpty correo
  then ("invalid data", afiliados)
  else if convertir_fecha nacimiento = none then ("invalid date format", afiliados)
  else if (plan ≠ "A" ∧ plan ≠ "B" ∧ plan ≠ "C") ∨ (genero ≠ "M" ∧ genero ≠ "F" ∧ genero ≠ "X")
      ∨ ¬('@' ∈ correo.data ∧ '.' ∈ correo.data)
  then ("invalid data", afiliados)
  else if ∃ af ∈ afiliados, af.id = id_afiliado then ("id already exists", afiliados)
  else ("ok",
    afiliados ++ [⟨id_afiliado, nombres, apellidos, nacimiento, plan, genero, correo⟩])

/-- The specification's description of `_valid_slot`: `invalid data` when
either string fails to parse; otherwise `out of range` exactly when the
weekday is Saturday or Sunday, or the time lies outside [08:00, 16:00]
inclusive, or the minute is neither 0 nor 30; otherwise `"ok"`. -/
def validSlotSpec (date_str time_str : String) : String :=
  match convertir_fecha date_str, strptimeTime time_str with
  | some fecha, some hora =>
    if 5 ≤ pyWeekday fecha ∨ hora.1 * 60 + hora.2 < 8 * 60 ∨ 16 * 60 < hora.1 * 60 + hora.2
        ∨ (hora.2 ≠ 0 ∧ hora.2 ≠ 30)
    then "out of range" else "ok"
  | _, _ => "invalid data"

/-- The ages `stats` aggregates into its global min/max, characterised
non-iteratively: the age of every affiliate whose birth date parses, in
stored order, regardless of the gender value. -/
def parsedAges (hoy : PyDate) (afiliados : List Aff) : List Int :=
  afiliados.filterMap (fun af => (convertir_fecha af.birth).map (calcular_edad hoy))

/-- The ages the *specification* says the global min/max range over: only
affiliates whose birth parses *and* whose gender is in {M,F,X}. -/
def parsedAgesGenderSpec (hoy : PyDate) (afiliados : List Aff) : List Int :=
  afiliados.filterMap (fun af =>
    if genero_valido af.gender then (convertir_fecha af.birth).map (calcular_edad hoy) else none)

/-! ## Concrete sample records (used by witnesses and counterexamples) -/

/-- Sample users: two doctors and two logged-in patients. -/
def exUsers : List User :=
  [⟨"doc", "pw-doc", "doctor", false⟩, ⟨"doc2", "pw-doc2", "doctor", false⟩,
   ⟨"pat", "pw-pat", "patient", true⟩, ⟨"pat2", "pw-pat2", "patient", true⟩]

/-- A scheduled appointment on a valid slot (Friday 2024-03-15, 08:00). -/
def exAppt : Appt := ⟨"1", "pat", "doc", "15/03/2024", "08:00", "scheduled"⟩

/-- The same appointment, already cancelled. -/
def exApptCancelled : Appt := ⟨"1", "pat", "doc", "15/03/2024", "08:00", "cancelled"⟩

/-- A fully valid affiliate row with id "7". -/
def exAff : Aff := ⟨"7", "Ana", "Diaz", "01/01/2000", "A", "F", "ana@mail.com"⟩

/-- An affiliate with a parseable birth date but unrecognised gender "Q". -/
def exAffQ : Aff := ⟨"9", "Bo", "Ruiz", "01/01/2000", "A", "Q", "bo@mail.com"⟩

/-- An appointment with a prescribed id, on the sample slot. -/
def idAppt (i : String) : Appt := ⟨i, "pat", "doc", "15/03/2024", "08:00", "scheduled"⟩

/-! ## Lemmas about the clinical operations -/

/-- When checks (1)–(4) all pass, `scheduleAppointment` reduces to the
collision check and, on success, the append. -/
lemma schedule_of_pre (users : List User) (citas : List Appt) (pn pw dn ds ts : String)
    (h : preScheduleB users pn pw dn ds ts = true) :
    scheduleAppointment users citas pn pw dn ds ts =
      if citas.any (matchesSlot dn ds ts)
      then ("slot taken", citas)
      else ("ok", citas ++ [⟨_next_id citas, pn, dn, ds, ts, "scheduled"⟩]) := by
  unfold preScheduleB at h
  simp only [Bool.and_eq_true, Bool.not_eq_true'] at h
  obtain ⟨⟨⟨hblank, hdoc⟩, hpat⟩, hslot⟩ := h
  unfold scheduleAppointment
  rw [hblank]
  cases hfd : findUser users dn with
  | none => rw [hfd] at hdoc; simp at hdoc
  | some d =>
    rw [hfd] at hdoc
    simp only [beq_iff_eq] at hdoc
    simp only [if_neg (by simp : ¬(false = true)), hdoc]
    cases hfp : findUser users pn with
    | none => rw [hfp] at hpat; simp at hpat
    | some p =>
      rw [hfp] at hpat
      simp only [Bool.and_eq_true, beq_iff_eq] at hpat
      obtain ⟨hpw, hsess⟩ := hpat
      simp only [beq_iff_eq] at hslot
      simp [hpw, hsess, hslot]

/-- The appointment store a `scheduleAppointment` call leaves behind: either
unchanged, or (when every check passed and the slot was free) the old store
with the fresh `"scheduled"` appointment appended. -/
lemma schedule_snd (users : List User) (citas : List Appt) (pn pw dn ds ts : String) :
    (scheduleAppointment users citas pn pw dn ds ts).2 = citas ∨
      (citas.any (matchesSlot dn ds ts) = false ∧
        (scheduleAppointment users citas pn pw dn ds ts).2 =
          citas ++ [⟨_next_id citas, pn, dn, ds, ts, "scheduled"⟩]) := by
  unfold scheduleAppointment
  split
  · exact Or.inl rfl
  split
  · exact Or.inl rfl
  next d =>
    split
    · exact Or.inl rfl
    split
    · exact Or.inl rfl
    next p =>
      split
      · exact Or.inl rfl
      by_cases hs : _valid_slot ds ts = "ok"
      · rw [if_neg (not_not_intro hs)]
        by_cases hc : citas.any (matchesSlot dn ds ts) = true
        · rw [if_pos hc]
          exact Or.inl rfl
        · rw [if_neg hc]
          exact Or.inr ⟨Bool.not_eq_true _ ▸ hc, rfl⟩
      · rw [if_pos hs]
        exact Or.inl rfl

/-- The search loop of `cancelAppointment` finds nothing exactly when no
appointment matches id, patient and status `"scheduled"`. -/
lemma cancelFirst_eq_none_iff (aid pn : String) (l : List Appt) :
    cancelFirst aid pn l = none ↔ ∀ c ∈ l, matchesCancel aid pn c = false := by
  induction l with
  | nil => simp [cancelFirst]
  | cons c rest ih =>
    rw [cancelFirst]
    by_cases hm : matchesCancel aid pn c = true
    · simp [hm]
    · rw [if_neg hm]
      simp only [Option.map_eq_none', ih, List.mem_cons]
      constructor
      · rintro hall x (rfl | hx)
        · exact Bool.not_eq_true _ ▸ hm
        · exact hall x hx
      · intro hall x hx
        exact hall x (Or.inr hx)

/-- A successful `cancelFirst` splits the store at the first matching
appointment and flips exactly its status to `"cancelled"`. -/
lemma cancelFirst_eq_some (aid pn : String) (l l' : List Appt)
    (h : cancelFirst aid pn l = some l') :
    ∃ l₁ c l₂, l = l₁ ++ c :: l₂ ∧ matchesCancel aid pn c = true ∧
      (∀ x ∈ l₁, matchesCancel aid pn x = false) ∧
      l' = l₁ ++ { c with status := "cancelled" } :: l₂ := by
  induction l generalizing l' with
  | nil => simp [cancelFirst] at h
  | cons c rest ih =>
    rw [cancelFirst] at h
    by_cases hm : matchesCancel aid pn c = true
    · rw [if_pos hm] at h
      refine ⟨[], c, rest, rfl, hm, by simp, ?_⟩
      simpa using h.symm
    · rw [if_neg hm] at h
      cases ho : cancelFirst aid pn rest with
      | none => rw [ho] at h; simp at h
      | some r =>
        rw [ho] at h
        simp only [Option.map_some', Option.some.injEq] at h
        obtain ⟨l₁, d, l₂, hsplit, hmd, hnone, hr⟩ := ih r ho
        refine ⟨c :: l₁, d, l₂, by simp [hsplit], hmd, ?_, ?_⟩
        · intro x hx
          rcases List.mem_cons.mp hx with rfl | hx'
          · exact Bool.not_eq_true _ ▸ hm
          · exact hnone x hx'
        · rw [← h, hr]; rfl

/-- The store a `cancelAppointment` call leaves behind: either unchanged, or
the result of a successful `cancelFirst`. -/
lemma cancel_snd (users : List User) (citas : List Appt) (pn pw aid : String) :
    (cancelAppointment users citas pn pw aid).2 = citas ∨
      cancelFirst aid pn citas = some (cancelAppointment users citas pn pw aid).2 := by
  unfold cancelAppointment
  split
  · exact Or.inl rfl
  next p =>
    split
    · exact Or.inl rfl
    split
    · exact Or.inl rfl
    next l' hl' => exact Or.inr (by rw [hl'])

/-- A cancelled record never matches the slot-collision predicate. -/
lemma matchesSlot_cancelled (d dt t : String) (c : Appt) :
    matchesSlot d dt t { c with status := "cancelled" } = false := by
  simp [matchesSlot]

/-- `scheduleAppointment` preserves the one-scheduled-per-slot invariant. -/
lemma schedule_preserves_inv (users : List User) (citas : List Appt)
    (pn pw dn ds ts : String) (h : ApptInv citas) :
    ApptInv (scheduleAppointment users citas pn pw dn ds ts).2 := by
  rcases schedule_snd users citas pn pw dn ds ts with heq | ⟨hfree, heq⟩
  · rw [heq]; exact h
  · rw [heq]
    intro d dt t
    rw [List.countP_append]
    by_cases hm : matchesSlot d dt t ⟨_next_id citas, pn, dn, ds, ts, "scheduled"⟩ = true
    · have htrip : dn = d ∧ ds = dt ∧ ts = t := by
        simp only [matchesSlot, Bool.and_eq_true, beq_iff_eq] at hm
        exact ⟨hm.1.1.1, hm.1.1.2, hm.1.2⟩
      obtain ⟨rfl, rfl, rfl⟩ := htrip
      have hzero : citas.countP (matchesSlot dn ds ts) = 0 := by
        rw [List.countP_eq_zero]
        intro a ha
        intro hpa
        have := List.any_eq_true.mpr ⟨a, ha, hpa⟩
        rw [hfree] at this
        exact Bool.false_ne_true this
      have hone : List.countP (matchesSlot dn ds ts) [⟨_next_id citas, pn, dn, ds, ts, "scheduled"⟩] ≤ 1 := by
        refine le_trans (List.countP_le_length _) ?_
        simp
      omega
    · have hzero : List.countP (matchesSlot d dt t) [⟨_next_id citas, pn, dn, ds, ts, "scheduled"⟩] = 0 := by
        rw [List.countP_eq_zero]
        intro a ha
        rw [List.mem_singleton] at ha
        subst ha
        exact fun hpa => hm hpa
      rw [hzero]
      have := h d dt t
      omega

/-- `cancelAppointment` preserves the one-scheduled-per-slot invariant. -/
lemma cancel_preserves_inv (users : List User) (citas : List Appt)
    (pn pw aid : String) (h : ApptInv citas) :
    ApptInv (cancelAppointment users citas pn pw aid).2 := by
  rcases cancel_snd users citas pn pw aid with heq | hsome
  · rw [heq]; exact h
  · obtain ⟨l₁, c, l₂, hsplit, hmc, hl₁, hres⟩ := cancelFirst_eq_some _ _ _ _ hsome
    intro d dt t
    have hc := h d dt t
    rw [hsplit, List.countP_append, List.countP_cons] at hc
    rw [hres, List.countP_append, List.countP_cons, matchesSlot_cancelled]
    simp only [if_neg (by simp : ¬(false = true))]
    omega

/-- A record matching the collision triple still `"scheduled"` also matches
`cancelAppointment`'s predicate for its own id and patient. -/
lemma matchesCancel_self_of_matchesSlot (dn ds ts : String) (A : Appt)
    (h : matchesSlot dn ds ts A = true) : matchesCancel A.id A.patient A = true := by
  simp only [matchesSlot, Bool.and_eq_true, beq_iff_eq] at h
  simp [matchesCancel, h.2]

/-- C1.  The appointment set keeps the invariant "at most one `scheduled`
appointment per (doctor, date, time) triple": `scheduleAppointment` and
`cancelAppointment` both preserve `ApptInv` from any state satisfying it;
when checks (1)–(4) pass and a `scheduled` appointment with the same
doctor, date and time already exists, `scheduleAppointment` answers
`"slot taken"` (the spec's `slot_taken`); and if the one matching
appointment `A` is first cancelled by its owner (its status flipping to
`"cancelled"`), the same `scheduleAppointment` call then succeeds. -/
theorem appointment_slot_invariant (users : List User) (citas : List Appt)
    (pn pw dn ds ts pw2 : String) (A : Appt) (aid : String) :
    (ApptInv citas → ApptInv (scheduleAppointment users citas pn pw dn ds ts).2)
    ∧ (ApptInv citas → ApptInv (cancelAppointment users citas pn pw aid).2)
    ∧ (preScheduleB users pn pw dn ds ts = true →
        (citas.any (matchesSlot dn ds ts) = true →
          (scheduleAppointment users citas pn pw dn ds ts).1 = "slot taken")
        ∧ (citas.filter (matchesSlot dn ds ts) = [A] →
            (∀ c ∈ citas, matchesCancel A.id A.patient c = true → c = A) →
            (match findUser users A.patient with
              | some p => (p.password == pw2) && p.session
              | none => false) = true →
            (cancelAppointment users citas A.patient pw2 A.id).1 = "ok"
            ∧ (scheduleAppointment users (cancelAppointment users citas A.patient pw2 A.id).2
                pn pw dn ds ts).1 = "ok")) := by
  refine ⟨schedule_preserves_inv users citas pn pw dn ds ts,
    cancel_preserves_inv users citas pn pw aid, ?_⟩
  intro hpre
  constructor
  · intro hany
    rw [schedule_of_pre users citas pn pw dn ds ts hpre, if_pos hany]
  · intro hfilter huniq hauth
    have hAmem : A ∈ citas := List.mem_of_mem_filter (hfilter ▸ List.mem_singleton_self A)
    have hAslot : matchesSlot dn ds ts A = true :=
      (List.mem_filter.mp (hfilter ▸ List.mem_singleton_self A)).2
    have hAcancel : matchesCancel A.id A.patient A = true :=
      matchesCancel_self_of_matchesSlot dn ds ts A hAslot
    -- the search loop must find something
    have hne : cancelFirst A.id A.patient citas ≠ none := by
      intro hnone
      have hfalse := (cancelFirst_eq_none_iff _ _ _).mp hnone A hAmem
      rw [hAcancel] at hfalse
      exact Bool.noConfusion hfalse
    obtain ⟨citas', hsome⟩ := Option.ne_none_iff_exists'.mp hne
    obtain ⟨l₁, c, l₂, hsplit, hmc, hl₁, hres⟩ := cancelFirst_eq_some _ _ _ _ hsome
    have hcA : c = A := huniq c (hsplit ▸ (List.mem_append_right l₁ (List.mem_cons_self c l₂))) hmc
    subst hcA
    -- the owner's credentials resolve
    obtain ⟨p, hfp, hppw, hpse⟩ :
        ∃ p, findUser users c.patient = some p ∧ p.password = pw2 ∧ p.session = true := by
      cases hfp : findUser users c.patient with
      | none => rw [hfp] at hauth; simp at hauth
      | some p =>
        rw [hfp] at hauth
        simp only [Bool.and_eq_true, beq_iff_eq] at hauth
        exact ⟨p, rfl, hauth.1, hauth.2⟩
    have hcancel : cancelAppointment users citas c.patient pw2 c.id = ("ok", citas') := by
      unfold cancelAppointment
      rw [hfp]
      simp [hppw, hpse, hsome]
    rw [hcancel]
    refine ⟨rfl, ?_⟩
    -- after the flip, no scheduled appointment matches the triple any more
    have hnomatch : citas'.any (matchesSlot dn ds ts) = false := by
      have hll : citas.filter (matchesSlot dn ds ts)
          = l₁.filter (matchesSlot dn ds ts) ++ c :: l₂.filter (matchesSlot dn ds ts) := by
        rw [hsplit, List.filter_append, List.filter_cons, if_pos hAslot]
      have hlen := congrArg List.length (hll.symm.trans hfilter)
      simp only [List.length_append, List.length_cons, List.length_nil] at hlen
      have hl1nil : l₁.filter (matchesSlot dn ds ts) = [] := List.length_eq_zero.mp (by omega)
      have hl2nil : l₂.filter (matchesSlot dn ds ts) = [] := List.length_eq_zero.mp (by omega)
      rw [hres]
      rw [List.any_append, List.any_cons, matchesSlot_cancelled]
      have h1 : l₁.any (matchesSlot dn ds ts) = false := by
        rw [List.any_eq_false]
        intro x hx
        exact fun hpx => by
          have := List.mem_filter.mpr ⟨hx, hpx⟩
          rw [hl1nil] at this
          exact (List.not_mem_nil x) this
      have h2 : l₂.any (matchesSlot dn ds ts) = false := by
        rw [List.any_eq_false]
        intro x hx
        exact fun hpx => by
          have := List.mem_filter.mpr ⟨hx, hpx⟩
          rw [hl2nil] at this
          exact (List.not_mem_nil x) this
      rw [h1, h2]
      rfl
    rw [schedule_of_pre users citas' pn pw dn ds ts hpre, if_neg (by rw [hnomatch]; exact Bool.false_ne_true)]

/-- Witness for C1 at a concrete state: one scheduled appointment on the
slot; a second booking hits `"slot taken"`, the owner cancels, and the
booking then succeeds; both operations preserve the invariant. -/
theorem appointment_slot_invariant_witness :
    ApptInv (scheduleAppointment exUsers [exAppt] "pat2" "pw-pat2" "doc" "15/03/2024" "08:00").2
    ∧ ApptInv (cancelAppointment exUsers [exAppt] "pat2" "pw-pat2" "1").2
    ∧ (scheduleAppointment exUsers [exAppt] "pat2" "pw-pat2" "doc" "15/03/2024" "08:00").1 = "slot taken"
    ∧ (cancelAppointment exUsers [exAppt] "pat" "pw-pat" "1").1 = "ok"
    ∧ (scheduleAppointment exUsers (cancelAppointment exUsers [exAppt] "pat" "pw-pat" "1").2
        "pat2" "pw-pat2" "doc" "15/03/2024" "08:00").1 = "ok" := by
  have hinv : ApptInv [exAppt] := by
    intro d dt t
    exact le_trans (List.countP_le_length _) (by simp)
  have h := appointment_slot_invariant exUsers [exAppt] "pat2" "pw-pat2" "doc"
    "15/03/2024" "08:00" "pw-pat" exAppt "1"
  have h3 := h.2.2 (by decide)
  have h4 := h3.2 (by decide) (by decide) (by decide)
  have hAid : exAppt.id = "1" := rfl
  have hApat : exAppt.patient = "pat" := rfl
  exact ⟨h.1 hinv, h.2.1 hinv, h3.1 (by decide), hAid ▸ hApat ▸ h4.1, hAid ▸ hApat ▸ h4.2⟩

/-! ## C2, C4, C6: the check cascades match the specification's description -/

lemma foldl_max_eq_foldr_max (l : List Nat) : ∀ a : Nat, l.foldl max a = max a (l.foldr max 0) := by
  induction l with
  | nil => intro a; simp
  | cons x xs ih =>
    intro a
    rw [List.foldl_cons, List.foldr_cons, ih (max a x), Nat.max_assoc]

/-- The source's id assignment agrees with the spec's "max numeric id plus
one, `\"1\"` if none". -/
lemma next_id_eq_spec (citas : List Appt) : _next_id citas = nextIdSpec citas := by
  unfold _next_id nextIdSpec
  by_cases h : citas = []
  · simp [h]
  · rw [if_neg (by simpa using h), if_neg h]
    rw [foldl_max_eq_foldr_max]
    rw [Nat.zero_max]

/-- The Boolean collision check of the source is the spec's existential. -/
lemma any_matchesSlot_iff (citas : List Appt) (dn ds ts : String) :
    citas.any (matchesSlot dn ds ts) = true ↔
      ∃ c ∈ citas, c.doctor = dn ∧ c.date = ds ∧ c.time = ts ∧ c.status = "scheduled" := by
  rw [List.any_eq_true]
  simp only [matchesSlot, Bool.and_eq_true, beq_iff_eq, and_assoc]

/-- The source's five-field `any` blank test is the spec's disjunction. -/
lemma blank5_iff (pn pw dn ds ts : String) :
    ([pn, pw, dn, ds, ts].any pyStripIsEmpty = true) ↔
      (pyStripIsEmpty pn = true ∨ pyStripIsEmpty pw = true ∨ pyStripIsEmpty dn = true
        ∨ pyStripIsEmpty ds = true ∨ pyStripIsEmpty ts = true) := by
  simp

/-- The source's seven-field `any` blank test is the spec's disjunction. -/
lemma blank7_iff (a b c d e f g : String) :
    ([a, b, c, d, e, f, g].any pyStripIsEmpty = true) ↔
      (pyStripIsEmpty a = true ∨ pyStripIsEmpty b = true ∨ pyStripIsEmpty c = true
        ∨ pyStripIsEmpty d = true ∨ pyStripIsEmpty e = true ∨ pyStripIsEmpty f = true
        ∨ pyStripIsEmpty g = true) := by
  simp

/-- C2.  `scheduleAppointment` performs exactly the spec's ordered cascade:
blank check, doctor lookup/role, patient authentication, slot validation
(propagated verbatim), collision check, and on success appends the new
`"scheduled"` appointment whose id is the maximal existing numeric id plus
one (`"1"` on an empty store); in particular ids {"1","2","5"} yield "6". -/
theorem scheduleAppointment_matches_spec :
    (∀ users citas pn pw dn ds ts,
      scheduleAppointment users citas pn pw dn ds ts
        = scheduleAppointmentSpec users citas pn pw dn ds ts)
    ∧ _next_id [idAppt "1", idAppt "2", idAppt "5"] = "6"
    ∧ _next_id [] = "1" := by
  refine ⟨?_, by decide, rfl⟩
  intro users citas pn pw dn ds ts
  unfold scheduleAppointment scheduleAppointmentSpec
  by_cases hb : [pn, pw, dn, ds, ts].any pyStripIsEmpty = true
  · rw [if_pos hb, if_pos ((blank5_iff pn pw dn ds ts).mp hb)]
  · rw [if_neg hb, if_neg (fun hx => hb ((blank5_iff pn pw dn ds ts).mpr hx))]
    split
    next hfd =>
      rw [hfd]
      simp [Option.any]
    next d hfd =>
      rw [hfd]
      by_cases hr : d.role = "doctor"
      · have hS1 : ¬((!Option.any (fun u => u.role == "doctor") (some d)) = true) := by
          simp [Option.any, hr]
        rw [if_neg (not_not_intro hr), if_neg hS1]
        split
        next hfp =>
          rw [hfp]
          simp [Option.any]
        next p hfp =>
          rw [hfp]
          by_cases hpw : p.password = pw
          · by_cases hse : p.session = true
            · have hI2 : ¬(p.password ≠ pw ∨ p.session = false) := by
                simp [hpw, hse]
              have hS2 : ¬((!Option.any (fun q => (q.password == pw) && q.session) (some p)) = true) := by
                simp [Option.any, hpw, hse]
              rw [if_neg hI2, if_neg hS2]
              by_cases hs : _valid_slot ds ts = "ok"
              · rw [if_neg (not_not_intro hs), if_neg (not_not_intro hs)]
                by_cases hc : citas.any (matchesSlot dn ds ts) = true
                · rw [if_pos hc, if_pos ((any_matchesSlot_iff citas dn ds ts).mp hc)]
                · rw [if_neg hc, if_neg (fun hex => hc ((any_matchesSlot_iff citas dn ds ts).mpr hex))]
                  rw [next_id_eq_spec]
              · rw [if_pos hs, if_pos hs]
            · have hse' : p.session = false := Bool.eq_false_iff.mpr hse
              have hS2 : (!Option.any (fun q => (q.password == pw) && q.session) (some p)) = true := by
                simp [Option.any, hse']
              rw [if_pos (Or.inr hse'), if_pos hS2]
          · have hS2 : (!Option.any (fun q => (q.password == pw) && q.session) (some p)) = true := by
              simp [Option.any, hpw]
            rw [if_pos (Or.inl hpw), if_pos hS2]
      · have hS1 : (!Option.any (fun u => u.role == "doctor") (some d)) = true := by
          simp [Option.any, hr]
        rw [if_pos hr, if_pos hS1]

/-- The Boolean duplicate-id check of the source is the spec's existential. -/
lemma any_id_iff (afiliados : List Aff) (id_afiliado : String) :
    afiliados.any (fun af => af.id == id_afiliado) = true ↔
      ∃ af ∈ afiliados, af.id = id_afiliado := by
  rw [List.any_eq_true]
  simp only [beq_iff_eq]

lemma plan_valido_false_iff (p : String) :
    plan_valido p = false ↔ (p ≠ "A" ∧ p ≠ "B" ∧ p ≠ "C") := by
  simp [plan_valido, and_assoc]

lemma genero_valido_false_iff (g : String) :
    genero_valido g = false ↔ (g ≠ "M" ∧ g ≠ "F" ∧ g ≠ "X") := by
  simp [genero_valido, and_assoc]

lemma correo_valido_false_iff (e : String) :
    correo_valido e = false ↔ ¬('@' ∈ e.data ∧ '.' ∈ e.data) := by
  simp [correo_valido, not_and_or]

/-- The Boolean validator test of the source is the spec's disjunction. -/
lemma validators_fail_iff (plan genero correo : String) :
    (!plan_valido plan || !genero_valido genero || !correo_valido correo) = true ↔
      ((plan ≠ "A" ∧ plan ≠ "B" ∧ plan ≠ "C")
        ∨ (genero ≠ "M" ∧ genero ≠ "F" ∧ genero ≠ "X")
        ∨ ¬('@' ∈ correo.data ∧ '.' ∈ correo.data)) := by
  rw [Bool.or_eq_true, Bool.or_eq_true, Bool.not_eq_true', Bool.not_eq_true', Bool.not_eq_true',
    plan_valido_false_iff, genero_valido_false_iff, correo_valido_false_iff, or_assoc]

/-- C4.  `registerAffiliate` performs exactly the spec's ordered cascade:
blank fields first, then birth-date format, then plan/gender/email
validators, then id uniqueness; on success the new affiliate is appended
and `"ok"` returned. -/
theorem registerAffiliate_matches_spec :
    ∀ afiliados id_afiliado nombres apellidos nacimiento plan genero correo,
      registerAffiliate afiliados id_afiliado nombres apellidos nacimiento plan genero correo
        = registerAffiliateSpec afiliados id_afiliado nombres apellidos nacimiento plan genero correo := by
  intro afiliados id_afiliado nombres apellidos nacimiento plan genero correo
  unfold registerAffiliate registerAffiliateSpec
  by_cases hb : [id_afiliado, nombres, apellidos, nacimiento, plan, genero, correo].any pyStripIsEmpty = true
  · rw [if_pos hb, if_pos ((blank7_iff _ _ _ _ _ _ _).mp hb)]
  · rw [if_neg hb, if_neg (fun hx => hb ((blank7_iff _ _ _ _ _ _ _).mpr hx))]
    by_cases hd : convertir_fecha nacimiento = none
    · rw [if_pos (by simp [hd]), if_pos hd]
    · rw [if_neg (by simp [Option.isNone_iff_eq_none, hd]), if_neg hd]
      by_cases hv : (!plan_valido plan || !genero_valido genero || !correo_valido correo) = true
      · rw [if_pos hv, if_pos ((validators_fail_iff plan genero correo).mp hv)]
      · rw [if_neg hv, if_neg (fun hx => hv ((validators_fail_iff plan genero correo).mpr hx))]
        by_cases hdup : afiliados.any (fun af => af.id == id_afiliado) = true
        · rw [if_pos hdup, if_pos ((any_id_iff afiliados id_afiliado).mp hdup)]
        · rw [if_neg hdup, if_neg (fun hex => hdup ((any_id_iff afiliados id_afiliado).mpr hex))]

/-- C6.  `_valid_slot` matches the spec's description — `"invalid data"`
(the spec's parse-failure code) when either string fails to parse, else
`"out of range"` exactly when the weekday is Saturday/Sunday (Python
weekday ≥ 5), the time lies outside [08:00, 16:00], or the minute is not
0/30, else `"ok"` — together with the spec's four concrete examples. -/
theorem valid_slot_matches_spec :
    (∀ date_str time_str, _valid_slot date_str time_str = validSlotSpec date_str time_str)
    ∧ _valid_slot "15/03/2024" "08:00" = "ok"
    ∧ _valid_slot "16/03/2024" "08:00" = "out of range"
    ∧ _valid_slot "15/03/2024" "08:15" = "out of range"
    ∧ _valid_slot "31/02/2024" "08:00" = "invalid data" := by
  refine ⟨?_, by decide, by decide, by decide, by decide⟩
  intro ds ts
  unfold _valid_slot validSlotSpec
  cases convertir_fecha ds with
  | none => cases strptimeTime ts with
    | none => rfl
    | some h => rfl
  | some f =>
    cases strptimeTime ts with
    | none => rfl
    | some h =>
      show (if pyWeekday f > 4 then "out of range"
          else if ¬(8 * 60 ≤ h.1 * 60 + h.2 ∧ h.1 * 60 + h.2 ≤ 16 * 60) then "out of range"
          else if ¬(h.2 = 0 ∨ h.2 = 30) then "out of range"
          else "ok")
        = (if 5 ≤ pyWeekday f ∨ h.1 * 60 + h.2 < 8 * 60 ∨ 16 * 60 < h.1 * 60 + h.2
              ∨ (h.2 ≠ 0 ∧ h.2 ≠ 30)
          then "out of range" else "ok")
      by_cases h1 : pyWeekday f > 4
      · rw [if_pos h1, if_pos (Or.inl (by omega))]
      · rw [if_neg h1]
        by_cases h2 : 8 * 60 ≤ h.1 * 60 + h.2 ∧ h.1 * 60 + h.2 ≤ 16 * 60
        · rw [if_neg (not_not_intro h2)]
          by_cases h3 : h.2 = 0 ∨ h.2 = 30
          · rw [if_neg (not_not_intro h3), if_neg (by omega)]
          · rw [if_pos h3, if_pos (by omega)]
        · rw [if_pos h2, if_pos (by omega)]

/-- C3 counterexample: a duplicate id together with a blank `names` field
returns `"invalid data"`, not `"id already exists"` — the blank check runs
first, so a duplicate id does *not* win regardless of field validity. -/
theorem registerAffiliate_duplicate_id_cex :
    registerAffiliate [exAff] "7" "" "Perez" "02/02/1990" "B" "M" "b@c.d"
      = ("invalid data", [exAff])
    ∧ ("invalid data" : String) ≠ "id already exists" := by
  exact ⟨rfl, by decide⟩

/-- C3 (amended).  When the earlier checks all pass — no blank field, the
birth date parses, and plan/gender/email are valid — a duplicate id always
yields `"id already exists"`. -/
theorem registerAffiliate_duplicate_id_amended :
    ∀ afiliados id_afiliado nombres apellidos nacimiento plan genero correo,
      [id_afiliado, nombres, apellidos, nacimiento, plan, genero, correo].any pyStripIsEmpty = false →
      (convertir_fecha nacimiento).isSome = true →
      (plan_valido plan && genero_valido genero && correo_valido correo) = true →
      afiliados.any (fun af => af.id == id_afiliado) = true →
      registerAffiliate afiliados id_afiliado nombres apellidos nacimiento plan genero correo
        = ("id already exists", afiliados) := by
  intro afiliados id_afiliado nombres apellidos nacimiento plan genero correo h1 h2 h3 h4
  unfold registerAffiliate
  rw [if_neg (by simp [h1])]
  rcases Option.isSome_iff_exists.mp h2 with ⟨v, hv⟩
  rw [if_neg (by simp [hv])]
  simp only [Bool.and_eq_true] at h3
  rw [if_neg (by simp [h3.1.1, h3.1.2, h3.2])]
  rw [if_pos h4]

/-- Witness for the amended C3 at a concrete duplicate registration. -/
theorem registerAffiliate_duplicate_id_amended_witness :
    registerAffiliate [exAff] "7" "Bob" "Perez" "02/02/1990" "B" "M" "b@c.d"
      = ("id already exists", [exAff]) :=
  registerAffiliate_duplicate_id_amended [exAff] "7" "Bob" "Perez" "02/02/1990" "B" "M" "b@c.d"
    (by decide) (by decide) (by decide) (by decide)

/-- C7.  For an authenticated patient, `cancelAppointment` answers
`"not found"` exactly when no appointment matches the id *and* the patient
*and* status `"scheduled"` (so an already-cancelled or other-patient
appointment yields `"not found"`), leaving the store untouched; when a
match exists, the first matching appointment's status flips to
`"cancelled"` and the call answers `"ok"`. -/
theorem cancelAppointment_not_found_iff :
    ∀ users citas pn pw aid p,
      findUser users pn = some p → p.password = pw → p.session = true →
      (((cancelAppointment users citas pn pw aid).1 = "not found") ↔
        (∀ c ∈ citas, matchesCancel aid pn c = false))
      ∧ ((cancelAppointment users citas pn pw aid).1 = "not found" →
          (cancelAppointment users citas pn pw aid).2 = citas)
      ∧ ((∃ c ∈ citas, matchesCancel aid pn c = true) →
          (cancelAppointment users citas pn pw aid).1 = "ok"
          ∧ ∃ l₁ c l₂, citas = l₁ ++ c :: l₂ ∧ matchesCancel aid pn c = true
              ∧ (∀ x ∈ l₁, matchesCancel aid pn x = false)
              ∧ (cancelAppointment users citas pn pw aid).2
                  = l₁ ++ { c with status := "cancelled" } :: l₂) := by
  intro users citas pn pw aid p hfp hpw hse
  cases hcf : cancelFirst aid pn citas with
  | none =>
    have hred : cancelAppointment users citas pn pw aid = ("not found", citas) := by
      unfold cancelAppointment
      rw [hfp]
      simp [hpw, hse, hcf]
    refine ⟨?_, ?_, ?_⟩
    · rw [hred]
      simpa using (cancelFirst_eq_none_iff aid pn citas).mp hcf
    · intro _
      rw [hred]
    · rintro ⟨c, hc, hmc⟩
      have := (cancelFirst_eq_none_iff aid pn citas).mp hcf c hc
      rw [hmc] at this
      exact Bool.noConfusion this
  | some citas' =>
    have hred : cancelAppointment users citas pn pw aid = ("ok", citas') := by
      unfold cancelAppointment
      rw [hfp]
      simp [hpw, hse, hcf]
    obtain ⟨l₁, c, l₂, hsplit, hmc, hl₁, hres⟩ := cancelFirst_eq_some aid pn citas citas' hcf
    refine ⟨?_, ?_, ?_⟩
    · rw [hred]
      constructor
      · intro hx
        simp at hx
      · intro hall
        have := hall c (hsplit ▸ List.mem_append_right l₁ (List.mem_cons_self c l₂))
        rw [hmc] at this
        exact Bool.noConfusion this
    · intro hx
      rw [hred] at hx
      simp at hx
    · intro _
      rw [hred]
      exact ⟨rfl, l₁, c, l₂, hsplit, hmc, hl₁, hres⟩

/-- Witness for C7: cancelling an already-cancelled appointment with the
right credentials answers `"not found"` and leaves the store unchanged. -/
theorem cancelAppointment_not_found_iff_witness :
    (cancelAppointment exUsers [exApptCancelled] "pat" "pw-pat" "1").1 = "not found"
    ∧ (cancelAppointment exUsers [exApptCancelled] "pat" "pw-pat" "1").2 = [exApptCancelled] := by
  have h := cancelAppointment_not_found_iff exUsers [exApptCancelled] "pat" "pw-pat" "1"
    ⟨"pat", "pw-pat", "patient", true⟩ (by decide) rfl rfl
  have h1 : (cancelAppointment exUsers [exApptCancelled] "pat" "pw-pat" "1").1 = "not found" :=
    h.1.mpr (by decide)
  exact ⟨h1, h.2.1 h1⟩

/-- The affiliate store a `registerAffiliate` call leaves behind: either
unchanged, or (id free) the old store with the new affiliate appended. -/
lemma register_snd (afiliados : List Aff)
    (id_afiliado nombres apellidos nacimiento plan genero correo : String) :
    (registerAffiliate afiliados id_afiliado nombres apellidos nacimiento plan genero correo).2
        = afiliados ∨
      (afiliados.any (fun af => af.id == id_afiliado) = false ∧
        (registerAffiliate afiliados id_afiliado nombres apellidos nacimiento plan genero correo).2
          = afiliados ++ [⟨id_afiliado, nombres, apellidos, nacimiento, plan, genero, correo⟩]) := by
  unfold registerAffiliate
  split
  · exact Or.inl rfl
  split
  · exact Or.inl rfl
  split
  · exact Or.inl rfl
  split
  · exact Or.inl rfl
  next hfree => exact Or.inr ⟨Bool.not_eq_true _ ▸ hfree, rfl⟩

/-- C8.  Affiliate ids stay unique: every store reachable from the empty
one by `registerAffiliate` calls has pairwise-distinct ids, and
`registerAffiliate` preserves id-uniqueness from any store satisfying it
(it never appends an affiliate whose id already occurs). -/
theorem affiliate_id_unique_invariant :
    (∀ afiliados, ReachableAff afiliados → AffIdsNodup afiliados)
    ∧ (∀ afiliados id_afiliado nombres apellidos nacimiento plan genero correo,
        AffIdsNodup afiliados →
        AffIdsNodup (registerAffiliate afiliados
          id_afiliado nombres apellidos nacimiento plan genero correo).2) := by
  have hpres : ∀ afiliados id_afiliado nombres apellidos nacimiento plan genero correo,
      AffIdsNodup afiliados →
      AffIdsNodup (registerAffiliate afiliados
        id_afiliado nombres apellidos nacimiento plan genero correo).2 := by
    intro afiliados id_afiliado nombres apellidos nacimiento plan genero correo h
    rcases register_snd afiliados id_afiliado nombres apellidos nacimiento plan genero correo with
      heq | ⟨hfree, heq⟩
    · rw [heq]; exact h
    · rw [heq]
      unfold AffIdsNodup at h ⊢
      rw [List.map_append, List.nodup_append]
      refine ⟨h, by simp, ?_⟩
      intro a ha
      simp only [List.map_cons, List.map_nil, List.mem_singleton]
      intro haid
      obtain ⟨af, hafmem, hafid⟩ := List.mem_map.mp ha
      apply (List.any_eq_false.mp hfree) af hafmem
      rw [beq_iff_eq, hafid, haid]
  exact ⟨fun afiliados hreach => by
    induction hreach with
    | nil => simp [AffIdsNodup]
    | step affs id_afiliado nombres apellidos nacimiento plan genero correo _ ih =>
      exact hpres affs id_afiliado nombres apellidos nacimiento plan genero correo ih,
    hpres⟩

/-- Witness for C8: a concrete registration on a unique-id store, plus the
empty store reached by zero steps. -/
theorem affiliate_id_unique_invariant_witness :
    AffIdsNodup (registerAffiliate [exAff] "8" "Bob" "Perez" "02/02/1990" "B" "M" "b@c.d").2
    ∧ AffIdsNodup ([] : List Aff) :=
  ⟨affiliate_id_unique_invariant.2 [exAff] "8" "Bob" "Perez" "02/02/1990" "B" "M" "b@c.d"
      (by simp [AffIdsNodup]),
    affiliate_id_unique_invariant.1 [] ReachableAff.nil⟩

/-- C10.  The collision check keys only on doctor/date/time/status — the
patient is ignored — so one logged-in patient can book two different
doctors on the very same slot: with both doctors passing the checks and the
slot free for each, both calls answer `"ok"` and the patient ends up with
two overlapping `"scheduled"` appointments. -/
theorem schedule_ignores_patient_overlap :
    ∀ users citas pn pw d1 d2 ds ts,
      preScheduleB users pn pw d1 ds ts = true →
      preScheduleB users pn pw d2 ds ts = true →
      d1 ≠ d2 →
      citas.any (matchesSlot d1 ds ts) = false →
      citas.any (matchesSlot d2 ds ts) = false →
      (scheduleAppointment users citas pn pw d1 ds ts).1 = "ok"
      ∧ (scheduleAppointment users (scheduleAppointment users citas pn pw d1 ds ts).2
          pn pw d2 ds ts).1 = "ok"
      ∧ 2 ≤ ((scheduleAppointment users (scheduleAppointment users citas pn pw d1 ds ts).2
            pn pw d2 ds ts).2.countP
          (fun c => c.patient == pn && c.date == ds && c.time == ts && c.status == "scheduled")) := by
  intro users citas pn pw d1 d2 ds ts h1 h2 hne hf1 hf2
  have e1 : scheduleAppointment users citas pn pw d1 ds ts
      = ("ok", citas ++ [⟨_next_id citas, pn, d1, ds, ts, "scheduled"⟩]) := by
    rw [schedule_of_pre users citas pn pw d1 ds ts h1, if_neg (by simp [hf1])]
  have hany2 : (citas ++ [(⟨_next_id citas, pn, d1, ds, ts, "scheduled"⟩ : Appt)]).any
      (matchesSlot d2 ds ts) = false := by
    rw [List.any_append, hf2]
    simp [matchesSlot, hne]
  have e2 : scheduleAppointment users
      (citas ++ [(⟨_next_id citas, pn, d1, ds, ts, "scheduled"⟩ : Appt)]) pn pw d2 ds ts
      = ("ok", (citas ++ [(⟨_next_id citas, pn, d1, ds, ts, "scheduled"⟩ : Appt)])
          ++ [(⟨_next_id (citas ++ [(⟨_next_id citas, pn, d1, ds, ts, "scheduled"⟩ : Appt)]),
                pn, d2, ds, ts, "scheduled"⟩ : Appt)]) := by
    rw [schedule_of_pre users _ pn pw d2 ds ts h2, if_neg (by rw [hany2]; simp)]
  rw [e1]
  dsimp only
  rw [e2]
  dsimp only
  refine ⟨rfl, rfl, ?_⟩
  simp only [List.countP_append]
  have hp1 : List.countP
      (fun c => c.patient == pn && c.date == ds && c.time == ts && c.status == "scheduled")
      [(⟨_next_id citas, pn, d1, ds, ts, "scheduled"⟩ : Appt)] = 1 := by
    simp [List.countP_cons]
  have hp2 : List.countP
      (fun c => c.patient == pn && c.date == ds && c.time == ts && c.status == "scheduled")
      [(⟨_next_id (citas ++ [⟨_next_id citas, pn, d1, ds, ts, "scheduled"⟩]),
          pn, d2, ds, ts, "scheduled"⟩ : Appt)] = 1 := by
    simp [List.countP_cons]
  omega

/-- Witness for C10: one patient books two doctors on the same Friday
08:00 slot; both bookings succeed. -/
theorem schedule_ignores_patient_overlap_witness :
    (scheduleAppointment exUsers [] "pat" "pw-pat" "doc" "15/03/2024" "08:00").1 = "ok"
    ∧ (scheduleAppointment exUsers
        (scheduleAppointment exUsers [] "pat" "pw-pat" "doc" "15/03/2024" "08:00").2
        "pat" "pw-pat" "doc2" "15/03/2024" "08:00").1 = "ok"
    ∧ 2 ≤ ((scheduleAppointment exUsers
        (scheduleAppointment exUsers [] "pat" "pw-pat" "doc" "15/03/2024" "08:00").2
        "pat" "pw-pat" "doc2" "15/03/2024" "08:00").2.countP
        (fun c => c.patient == "pat" && c.date == "15/03/2024" && c.time == "08:00"
          && c.status == "scheduled")) :=
  schedule_ignores_patient_overlap exUsers [] "pat" "pw-pat" "doc" "doc2" "15/03/2024" "08:00"
    (by decide) (by decide) (by decide) rfl rfl

/-! ## C9: the ages behind the global min/max of `stats` -/

/-- One `stats` iteration appends to the global age list exactly the age of
the affiliate when its birth parses — independently of the gender field. -/
lemma statsStep_allAges (hoy : PyDate) (acc : StatsAcc) (af : Aff) :
    (statsStep hoy acc af).allAges =
      match convertir_fecha af.birth with
      | none => acc.allAges
      | some fn => acc.allAges ++ [calcular_edad hoy fn] := by
  unfold statsStep
  cases hp : convertir_fecha af.birth with
  | none => simp [apply_ite (StatsAcc.allAges)]
  | some fn => simp [apply_ite (StatsAcc.allAges)]

/-- The `stats` fold accumulates, in stored order, the ages of exactly the
affiliates whose birth date parses. -/
lemma stats_fold_allAges (hoy : PyDate) :
    ∀ (affs : List Aff) (acc : StatsAcc),
      (affs.foldl (statsStep hoy) acc).allAges = acc.allAges ++ parsedAges hoy affs := by
  intro affs
  induction affs with
  | nil => intro acc; simp [parsedAges]
  | cons af rest ih =>
    intro acc
    rw [List.foldl_cons, ih]
    rw [statsStep_allAges]
    cases hp : convertir_fecha af.birth with
    | none => simp [parsedAges, List.filterMap_cons, hp]
    | some fn => simp [parsedAges, List.filterMap_cons, hp]

/-- C9 (amended).  `stats` returns the empty aggregate on an empty
collection, and otherwise its global min/max range over the ages of exactly
the affiliates whose birth date parses — regardless of the gender value;
affiliates with a malformed birth are silently skipped. -/
theorem stats_minmax_amended :
    ∀ hoy afiliados,
      (afiliados = [] → stats hoy afiliados = none)
      ∧ (afiliados ≠ [] →
          ∃ r, stats hoy afiliados = some r
            ∧ r.edad_minima = pyMin (parsedAges hoy afiliados)
            ∧ r.edad_maxima = pyMax (parsedAges hoy afiliados)) := by
  intro hoy afiliados
  constructor
  · intro h
    simp [stats, h]
  · intro h
    have hne : afiliados.isEmpty = false := by
      cases afiliados with
      | nil => exact absurd rfl h
      | cons a l => rfl
    unfold stats
    rw [if_neg (by simp [hne])]
    refine ⟨_, rfl, ?_, ?_⟩
    · simp [stats_fold_allAges]
    · simp [stats_fold_allAges]

/-- Witness for the amended C9: the empty store gives the empty aggregate,
and a one-affiliate store gives min/max over its parsed age. -/
theorem stats_minmax_amended_witness :
    stats ⟨2024, 6, 15⟩ [] = none
    ∧ ∃ r, stats ⟨2024, 6, 15⟩ [exAff] = some r
        ∧ r.edad_minima = pyMin (parsedAges ⟨2024, 6, 15⟩ [exAff])
        ∧ r.edad_maxima = pyMax (parsedAges ⟨2024, 6, 15⟩ [exAff]) :=
  ⟨(stats_minmax_amended ⟨2024, 6, 15⟩ []).1 rfl,
   (stats_minmax_amended ⟨2024, 6, 15⟩ [exAff]).2 (by simp)⟩

/-- C9 counterexample: an affiliate with a parseable birth but unrecognised
gender "Q" is *not* skipped from the global min/max — the claim's age set
(parse ∧ recognised gender) is empty here, yet `stats` reports age 24. -/
theorem stats_gender_skip_cex :
    stats ⟨2024, 6, 15⟩ [exAffQ] = some ⟨1, 0, 0, 0, 0, 0, 24, 24⟩
    ∧ parsedAgesGenderSpec ⟨2024, 6, 15⟩ [exAffQ] = []
    ∧ pyMin (parsedAgesGenderSpec ⟨2024, 6, 15⟩ [exAffQ]) = 0
    ∧ pyMax (parsedAgesGenderSpec ⟨2024, 6, 15⟩ [exAffQ]) = 0
    ∧ (24 : Int) ≠ 0 :=
  ⟨rfl, rfl, rfl, rfl, by decide⟩

/-! ## C5: `listAffiliates` bubble sort — permutation, sortedness, stability -/

/-- Sorted ascending by lower-cased surname (Python's case-insensitive
string comparison). -/
def SortedByKey (l : List Aff) : Prop :=
  l.Pairwise (fun a b => lowerKey a ≤ lowerKey b)

lemma bpass_length (x : Aff) (l : List Aff) : (bpass x l).length = l.length + 1 := by
  induction l generalizing x with
  | nil => rfl
  | cons y rest ih =>
    by_cases h : lowerKey y < lowerKey x
    · simp only [bpass, if_pos h, List.length_cons, ih x]
    · simp only [bpass, if_neg h, List.length_cons, ih y]

lemma bpass_perm (x : Aff) (l : List Aff) : (bpass x l).Perm (x :: l) := by
  induction l generalizing x with
  | nil => exact List.Perm.refl _
  | cons y rest ih =>
    by_cases h : lowerKey y < lowerKey x
    · rw [bpass, if_pos h]
      exact ((ih x).cons y).trans (List.Perm.swap x y rest)
    · rw [bpass, if_neg h]
      exact (ih y).cons x

/-- A bubble pass never reorders two records of equal key (a swap happens
only under a strict key inequality), so every key class keeps its relative
order. -/
lemma bpass_filter (s : List Char) (x : Aff) (l : List Aff) :
    (bpass x l).filter (fun a => lowerKey a == s)
      = (x :: l).filter (fun a => lowerKey a == s) := by
  induction l generalizing x with
  | nil => rfl
  | cons y rest ih =>
    by_cases h : lowerKey y < lowerKey x
    · rw [bpass, if_pos h]
      have hne : lowerKey y ≠ lowerKey x := ne_of_lt h
      by_cases hqy : (lowerKey y == s) = true
      · by_cases hqx : (lowerKey x == s) = true
        · rw [beq_iff_eq] at hqx hqy
          exact absurd (hqy.trans hqx.symm) hne
        · simp [List.filter_cons, hqy, hqx, ih x]
      · simp [List.filter_cons, hqy, ih x]
    · rw [bpass, if_neg h]
      simp [List.filter_cons, ih y]

/-- A bubble pass carries a maximum of the input to the last position. -/
lemma bpass_split (x : Aff) (l : List Aff) :
    ∃ ys m, bpass x l = ys ++ [m] ∧ ∀ z ∈ x :: l, lowerKey z ≤ lowerKey m := by
  induction l generalizing x with
  | nil =>
    refine ⟨[], x, rfl, ?_⟩
    intro z hz
    rw [List.mem_singleton] at hz
    subst hz
    exact le_refl _
  | cons y rest ih =>
    by_cases h : lowerKey y < lowerKey x
    · obtain ⟨ys, m, heq, hle⟩ := ih x
      refine ⟨y :: ys, m, by simp [bpass, h, heq], ?_⟩
      intro z hz
      rcases List.mem_cons.mp hz with rfl | hz'
      · exact hle z (List.mem_cons_self z rest)
      · rcases List.mem_cons.mp hz' with rfl | hz''
        · exact (le_of_lt h).trans (hle x (List.mem_cons_self x rest))
        · exact hle z (List.mem_cons_of_mem x hz'')
    · obtain ⟨ys, m, heq, hle⟩ := ih y
      have hxy : lowerKey x ≤ lowerKey y := le_of_not_lt h
      refine ⟨x :: ys, m, by simp [bpass, h, heq], ?_⟩
      intro z hz
      rcases List.mem_cons.mp hz with rfl | hz'
      · exact hxy.trans (hle y (List.mem_cons_self y rest))
      · exact hle z hz'

lemma passBounded_perm (w : Nat) (l : List Aff) : (passBounded w l).Perm l := by
  unfold passBounded
  cases htw : l.take w with
  | nil => exact List.Perm.refl l
  | cons x rest =>
    have h1 : (bpass x rest ++ l.drop w).Perm ((x :: rest) ++ l.drop w) :=
      (bpass_perm x rest).append_right _
    rw [← htw, List.take_append_drop] at h1
    exact h1

lemma passBounded_filter (s : List Char) (w : Nat) (l : List Aff) :
    (passBounded w l).filter (fun a => lowerKey a == s)
      = l.filter (fun a => lowerKey a == s) := by
  unfold passBounded
  cases htw : l.take w with
  | nil => rfl
  | cons x rest =>
    rw [List.filter_append, bpass_filter s x rest, ← List.filter_append, ← htw,
      List.take_append_drop]

lemma passBounded_length (w : Nat) (l : List Aff) :
    (passBounded w l).length = l.length :=
  (passBounded_perm w l).length_eq

/-- The outer-loop invariant: with `c` more passes to run, if the last
`length - c` elements are already sorted and dominate the first `c`
elements, the remaining passes sort the whole list. -/
lemma bouter_sorted : ∀ (c : Nat) (l : List Aff),
    c ≤ l.length →
    SortedByKey (l.drop c) →
    (∀ a ∈ l.take c, ∀ b ∈ l.drop c, lowerKey a ≤ lowerKey b) →
    SortedByKey (bouter c l) := by
  intro c
  induction c with
  | zero =>
    intro l _ hs _
    simpa using hs
  | succ c ih =>
    intro l hcl hs hfb
    rw [bouter]
    have hlen1 : (l.take (c + 1)).length = c + 1 := by
      rw [List.length_take]
      omega
    have hlt : l.take (c + 1) ≠ [] := by
      intro hnil
      rw [hnil] at hlen1
      simp at hlen1
    obtain ⟨x, rest, hxr⟩ := List.exists_cons_of_ne_nil hlt
    have hpb : passBounded (c + 1) l = bpass x rest ++ l.drop (c + 1) := by
      unfold passBounded
      rw [hxr]
    obtain ⟨ys, m, heq, hle⟩ := bpass_split x rest
    have hrest : rest.length = c := by
      rw [hxr] at hlen1
      simpa using hlen1
    have hys : ys.length = c := by
      have h1 : (bpass x rest).length = rest.length + 1 := bpass_length x rest
      rw [heq] at h1
      simp at h1
      omega
    have hl'eq : passBounded (c + 1) l = ys ++ m :: l.drop (c + 1) := by
      rw [hpb, heq]
      simp
    have hmem : ∀ z ∈ ys ++ [m], z ∈ l.take (c + 1) := by
      intro z hz
      rw [← heq] at hz
      have hz2 := (bpass_perm x rest).mem_iff.mp hz
      rw [hxr]
      exact hz2
    have hmax : ∀ z ∈ l.take (c + 1), lowerKey z ≤ lowerKey m := by
      intro z hz
      rw [hxr] at hz
      exact hle z hz
    apply ih
    · have hlen : (passBounded (c + 1) l).length = l.length := passBounded_length _ _
      omega
    · rw [hl'eq, List.drop_left' hys]
      exact List.Pairwise.cons (fun b hb => hfb m (hmem m (by simp)) b hb) hs
    · intro a ha b hb
      rw [hl'eq, List.take_left' hys] at ha
      rw [hl'eq, List.drop_left' hys] at hb
      have haT : a ∈ l.take (c + 1) := hmem a (by simp [ha])
      rcases List.mem_cons.mp hb with rfl | hb'
      · exact hmax a haT
      · exact hfb a haT b hb'

lemma bouter_perm : ∀ (c : Nat) (l : List Aff), (bouter c l).Perm l := by
  intro c
  induction c with
  | zero => intro l; exact List.Perm.refl l
  | succ c ih =>
    intro l
    rw [bouter]
    exact (ih _).trans (passBounded_perm _ _)

lemma bouter_filter (s : List Char) : ∀ (c : Nat) (l : List Aff),
    (bouter c l).filter (fun a => lowerKey a == s)
      = l.filter (fun a => lowerKey a == s) := by
  intro c
  induction c with
  | zero => intro l; rfl
  | succ c ih =>
    intro l
    rw [bouter, ih, passBounded_filter]

/-- C5.  `listAffiliates` returns a permutation of the stored collection,
sorted ascending by lower-cased surname, and stably: for every key value
the affiliates with that (case-insensitive) surname appear in their
original stored relative order. -/
theorem listAffiliates_sorted_stable_perm :
    ∀ afiliados,
      (listAffiliates afiliados).Perm afiliados
      ∧ SortedByKey (listAffiliates afiliados)
      ∧ ∀ s, (listAffiliates afiliados).filter (fun a => lowerKey a == s)
          = afiliados.filter (fun a => lowerKey a == s) := by
  intro afiliados
  refine ⟨bouter_perm _ _, ?_, fun s => bouter_filter s _ _⟩
  unfold listAffiliates
  apply bouter_sorted
  · exact le_refl _
  · simp [SortedByKey]
  · intro a ha b hb
    rw [List.drop_length] at hb
    exact absurd hb (List.not_mem_nil b)

end EPS
